import Mathlib

/-!
Verification of the `Reservoir` class in `conceptor/reservoir.py`.

Modelling conventions, matching the NumPy source:
* A NumPy matrix that grows column-by-column (`x_collector`,
  `all_train_args`, ...) is modelled as a `List (Fin n → ℝ)` of its
  columns; `np.hstack` becomes list append and an empty array is `[]`.
* Fixed-shape matrices are `Matrix (Fin n) (Fin m) ℝ`.
* `np.linalg.svd` is an external LAPACK routine; it is modelled as a
  function parameter `svd` returning a pair `(U, S)`; theorems that
  depend on its output constrain it with the SVD equations as
  hypotheses.
* `logic.PHI` (aperture rescaling) and `scipy.interpolate.interp1d`
  are external to this repository and are likewise function parameters.
* `np.tanh` is `Real.tanh` entrywise; `np.arctanh` is `artanh` below.
* The method `compute_projectors` can raise an `IndexError` when the
  aperture list is shorter than the number of stored patterns; it is
  modelled with a sum type whose left component carries the state at
  the moment the exception is raised (Python leaves all mutations done
  before the raise in place).
-/

namespace Conceptor

noncomputable section

open Matrix

/-- Correlation accumulator: for a list of columns `l` standing for the
matrix `X`, `corr l` is `X · Xᵀ` (entry `(i,k)` sums `c i * c k` over
the columns `c`). -/
def corr {n : ℕ} (l : List (Fin n → ℝ)) : Matrix (Fin n) (Fin n) ℝ :=
  Matrix.of fun i k => (l.map fun c => c i * c k).sum

/-- Cross correlation: for column lists `xs` (matrix `X`) and `ys`
(matrix `Y`) of equal length, `cross xs ys` is `X · Yᵀ`. -/
def cross {n m : ℕ} (xs : List (Fin n → ℝ)) (ys : List (Fin m → ℝ)) :
    Matrix (Fin n) (Fin m) ℝ :=
  Matrix.of fun i k => ((xs.zip ys).map fun p => p.1 i * p.2 k).sum

/-- Mutable state of a `Reservoir` instance: every `self.*` field the
methods read or write.  `W_out` and `W` start as empty arrays, modelled
by `Option`.  `self.Cs` is a list of four positionally aligned lists;
it is always a four-slot list in every reachable state (constructor and
`clean_storage` both rebuild it as `[[], [], [], []]`), so it is
modelled as four fields `Cs0 ... Cs3`, and the always-true Python test
`if self.Cs:` in `compute_projectors` is embedded as an unconditional
reset. -/
structure ResState (sizeIn sizeNet : ℕ) where
  W_star : Matrix (Fin sizeNet) (Fin sizeNet) ℝ
  W_in : Matrix (Fin sizeNet) (Fin sizeIn) ℝ
  W_bias : Fin sizeNet → ℝ
  W_out : Option (Matrix (Fin sizeIn) (Fin sizeNet) ℝ)
  W : Option (Matrix (Fin sizeNet) (Fin sizeNet) ℝ)
  num_pattern : ℕ
  x_collectors : List (List (Fin sizeNet → ℝ))
  pattern_Rs : List (Matrix (Fin sizeNet) (Fin sizeNet) ℝ)
  UR_collectors : List (Matrix (Fin sizeNet) (Fin sizeNet) ℝ)
  SR_collectors : List (Fin sizeNet → ℝ)
  pattern_collectors : List (List (Fin sizeIn → ℝ))
  all_train_args : List (Fin sizeNet → ℝ)
  all_train_old_args : List (Fin sizeNet → ℝ)
  all_train_outs : List (Fin sizeIn → ℝ)
  Cs0 : List (Matrix (Fin sizeNet) (Fin sizeNet) ℝ)
  Cs1 : List (Matrix (Fin sizeNet) (Fin sizeNet) ℝ)
  Cs2 : List (Fin sizeNet → ℝ)
  Cs3 : List (Fin sizeNet → ℝ)

variable {sizeIn sizeNet : ℕ}

/-- The `__init__` constructor after the external `util.init_weights`
call returned `(W_star, W_in, W_bias)`: counter zero, all storage
empty. -/
def init_reservoir (W_star : Matrix (Fin sizeNet) (Fin sizeNet) ℝ)
    (W_in : Matrix (Fin sizeNet) (Fin sizeIn) ℝ) (W_bias : Fin sizeNet → ℝ) :
    ResState sizeIn sizeNet where
  W_star := W_star
  W_in := W_in
  W_bias := W_bias
  W_out := none
  W := none
  num_pattern := 0
  x_collectors := []
  pattern_Rs := []
  UR_collectors := []
  SR_collectors := []
  pattern_collectors := []
  all_train_args := []
  all_train_old_args := []
  all_train_outs := []
  Cs0 := []
  Cs1 := []
  Cs2 := []
  Cs3 := []

/-- Method `clean_storage`: resets trained weights, pattern storage,
aggregated training data and the conceptor bundle.  Note the source
does not touch `self.num_pattern` here. -/
def clean_storage (s : ResState sizeIn sizeNet) : ResState sizeIn sizeNet :=
  { s with
    W_out := none
    W := none
    x_collectors := []
    pattern_Rs := []
    UR_collectors := []
    SR_collectors := []
    pattern_collectors := []
    all_train_args := []
    all_train_old_args := []
    all_train_outs := []
    Cs0 := []
    Cs1 := []
    Cs2 := []
    Cs3 := [] }

/-- Entrywise `np.tanh` on a state vector. -/
def tanh_vec {n : ℕ} (v : Fin n → ℝ) : Fin n → ℝ := fun i => Real.tanh (v i)

/-- Real inverse hyperbolic tangent, the mathematical function computed
by the external `np.arctanh`. -/
def artanh (x : ℝ) : ℝ := Real.log ((1 + x) / (1 - x)) / 2

/-- The state trajectory of the loop body of `drive_reservoir`:
`state_seq ... n` is the value of the Python variable `x` after `n`
loop iterations (`x` starts as the zero vector, and iteration `n`
consumes input column `n`). -/
def state_seq (W_star : Matrix (Fin sizeNet) (Fin sizeNet) ℝ)
    (W_in : Matrix (Fin sizeNet) (Fin sizeIn) ℝ) (W_bias : Fin sizeNet → ℝ)
    (pattern : List (Fin sizeIn → ℝ)) : ℕ → Fin sizeNet → ℝ
  | 0 => 0
  | n + 1 =>
      tanh_vec (W_star *ᵥ state_seq W_star W_in W_bias pattern n +
        W_in *ᵥ pattern.getD n 0 + W_bias)

/-- Columns of `x_collector` in `drive_reservoir`: slot `j` receives
the state produced at loop index `n = washout_length + j`, which is
`state_seq ... (washout_length + j + 1)`. -/
def x_collector (W_star : Matrix (Fin sizeNet) (Fin sizeNet) ℝ)
    (W_in : Matrix (Fin sizeNet) (Fin sizeIn) ℝ) (W_bias : Fin sizeNet → ℝ)
    (pattern : List (Fin sizeIn → ℝ)) (washout_length : ℕ) :
    List (Fin sizeNet → ℝ) :=
  (List.range (pattern.length - washout_length)).map fun j =>
    state_seq W_star W_in W_bias pattern (washout_length + j + 1)

/-- Columns of `x_old_collector`: slot `j` receives the previous state
`state_seq ... (washout_length + j)`. -/
def x_old_collector (W_star : Matrix (Fin sizeNet) (Fin sizeNet) ℝ)
    (W_in : Matrix (Fin sizeNet) (Fin sizeIn) ℝ) (W_bias : Fin sizeNet → ℝ)
    (pattern : List (Fin sizeIn → ℝ)) (washout_length : ℕ) :
    List (Fin sizeNet → ℝ) :=
  (List.range (pattern.length - washout_length)).map fun j =>
    state_seq W_star W_in W_bias pattern (washout_length + j)

/-- Columns of `p_collector`: slot `j` receives input column
`washout_length + j`. -/
def p_collector (pattern : List (Fin sizeIn → ℝ)) (washout_length : ℕ) :
    List (Fin sizeIn → ℝ) :=
  (List.range (pattern.length - washout_length)).map fun j =>
    pattern.getD (washout_length + j) 0

/-- Method `drive_reservoir`: harvests the post-washout states, their
predecessors and the driving inputs, stores the pattern record
(including `R = X·Xᵀ / learn_length` and its SVD factors), concatenates
into the aggregated training data, and increments the counter. -/
def drive_reservoir
    (svd : Matrix (Fin sizeNet) (Fin sizeNet) ℝ →
      Matrix (Fin sizeNet) (Fin sizeNet) ℝ × (Fin sizeNet → ℝ))
    (s : ResState sizeIn sizeNet) (pattern : List (Fin sizeIn → ℝ))
    (washout_length : ℕ) : ResState sizeIn sizeNet :=
  let learn_length := pattern.length - washout_length
  let xc := x_collector s.W_star s.W_in s.W_bias pattern washout_length
  let xoc := x_old_collector s.W_star s.W_in s.W_bias pattern washout_length
  let pc := p_collector pattern washout_length
  let R := (learn_length : ℝ)⁻¹ • corr xc
  { s with
    x_collectors := s.x_collectors ++ [xc]
    SR_collectors := s.SR_collectors ++ [(svd R).2]
    UR_collectors := s.UR_collectors ++ [(svd R).1]
    pattern_Rs := s.pattern_Rs ++ [R]
    pattern_collectors := s.pattern_collectors ++ [pc]
    all_train_args := s.all_train_args ++ xc
    all_train_old_args := s.all_train_old_args ++ xoc
    all_train_outs := s.all_train_outs ++ pc
    num_pattern := s.num_pattern + 1 }

/-- The matrix `S_new` of `compute_projector`:
`diag(S) · (diag(S) + alpha⁻² · I)⁻¹`. -/
def S_new {n : ℕ} (S : Fin n → ℝ) (alpha : ℝ) : Matrix (Fin n) (Fin n) ℝ :=
  Matrix.diagonal S *
    (Matrix.diagonal S + alpha ^ (-2 : ℤ) • (1 : Matrix (Fin n) (Fin n) ℝ))⁻¹

/-- The conceptor matrix `C = U · S_new · Uᵀ` built by
`compute_projector` from the SVD factors `(U, S)` of `R`. -/
def projC {n : ℕ} (U : Matrix (Fin n) (Fin n) ℝ) (S : Fin n → ℝ)
    (alpha : ℝ) : Matrix (Fin n) (Fin n) ℝ :=
  U * S_new S alpha * Uᵀ

/-- Method `compute_projector(R, alpha=10)`: SVD-decomposes `R` and
appends `(C, U, np.diag(S_new), S)` to the four bundle slots
(`np.diag` of the matrix `S_new` extracts its diagonal vector). -/
def compute_projector
    (svd : Matrix (Fin sizeNet) (Fin sizeNet) ℝ →
      Matrix (Fin sizeNet) (Fin sizeNet) ℝ × (Fin sizeNet → ℝ))
    (s : ResState sizeIn sizeNet) (R : Matrix (Fin sizeNet) (Fin sizeNet) ℝ)
    (alpha : ℝ := 10) : ResState sizeIn sizeNet :=
  let U := (svd R).1
  let S := (svd R).2
  { s with
    Cs0 := s.Cs0 ++ [projC U S alpha]
    Cs1 := s.Cs1 ++ [U]
    Cs2 := s.Cs2 ++ [fun i => S_new S alpha i i]
    Cs3 := s.Cs3 ++ [S] }

/-- The bundle reset at the top of `compute_projectors`
(`self.Cs = [[], [], [], []]`). -/
def reset_bundle (s : ResState sizeIn sizeNet) : ResState sizeIn sizeNet :=
  { s with Cs0 := [], Cs1 := [], Cs2 := [], Cs3 := [] }

/-- The `for p in range(self.num_pattern)` loop of `compute_projectors`.
Iteration `p` reads `self.pattern_Rs[p]`, then `alphas[p]`, then calls
`self.compute_projector(R)` — without passing `alpha`, so the default
aperture `10` is used.  A failed index read raises, leaving the
mutations made so far in place: the left summand carries that state. -/
def proj_loop
    (svd : Matrix (Fin sizeNet) (Fin sizeNet) ℝ →
      Matrix (Fin sizeNet) (Fin sizeNet) ℝ × (Fin sizeNet → ℝ))
    (alphas : List ℝ) :
    ℕ → ℕ → ResState sizeIn sizeNet →
      ResState sizeIn sizeNet ⊕ ResState sizeIn sizeNet
  | 0, _, s => Sum.inr s
  | count + 1, p, s =>
    match s.pattern_Rs.get? p with
    | none => Sum.inl s
    | some R =>
      match alphas.get? p with
      | none => Sum.inl s
      | some _ => proj_loop svd alphas count (p + 1) (compute_projector svd s R)

/-- Method `compute_projectors(alphas)`: resets the bundle, then runs
the pattern loop. -/
def compute_projectors
    (svd : Matrix (Fin sizeNet) (Fin sizeNet) ℝ →
      Matrix (Fin sizeNet) (Fin sizeNet) ℝ × (Fin sizeNet → ℝ))
    (s : ResState sizeIn sizeNet) (alphas : List ℝ) :
    ResState sizeIn sizeNet ⊕ ResState sizeIn sizeNet :=
  proj_loop svd alphas s.num_pattern 0 (reset_bundle s)

/-- Conceptor list of a `compute_projectors` result, whether it
completed or raised. -/
def result_Cs0 :
    ResState sizeIn sizeNet ⊕ ResState sizeIn sizeNet →
      List (Matrix (Fin sizeNet) (Fin sizeNet) ℝ) :=
  Sum.elim (fun s => s.Cs0) (fun s => s.Cs0)

/-- The matrix assigned to `self.W_out` by `compute_W_out`:
`(inv(X·Xᵀ + varrho_out·I) · X · Uᵀ)ᵀ` with `X` the aggregated states
and `U` the aggregated inputs. -/
def compute_W_out_mat (s : ResState sizeIn sizeNet) (varrho_out : ℝ) :
    Matrix (Fin sizeIn) (Fin sizeNet) ℝ :=
  ((corr s.all_train_args + varrho_out • 1)⁻¹ *
    cross s.all_train_args s.all_train_outs)ᵀ

/-- Method `compute_W_out`. -/
def compute_W_out (s : ResState sizeIn sizeNet) (varrho_out : ℝ) :
    ResState sizeIn sizeNet :=
  { s with W_out := some (compute_W_out_mat s varrho_out) }

/-- The target columns of `compute_W`:
`arctanh(all_train_args) - repmat(W_bias, 1, total_length)`. -/
def W_targets (s : ResState sizeIn sizeNet) : List (Fin sizeNet → ℝ) :=
  s.all_train_args.map fun c i => artanh (c i) - s.W_bias i

/-- The matrix assigned to `self.W` by `compute_W`:
`(inv(X_old·X_oldᵀ + varrho_w·I) · X_old · W_targetsᵀ)ᵀ`. -/
def compute_W_mat (s : ResState sizeIn sizeNet) (varrho_w : ℝ) :
    Matrix (Fin sizeNet) (Fin sizeNet) ℝ :=
  ((corr s.all_train_old_args + varrho_w • 1)⁻¹ *
    cross s.all_train_old_args (W_targets s))ᵀ

/-- Per-datum raw correlation of `recognition_train`:
`R = data · dataᵀ / data.shape[1]`. -/
def R_of {d : ℕ} (data : List (Fin d → ℝ)) : Matrix (Fin d) (Fin d) ℝ :=
  ((data.length : ℝ))⁻¹ • corr data

/-- Per-datum proto-conceptor of `recognition_train`:
`C_prem = R · (R + I)⁻¹`. -/
def C_prem {d : ℕ} (data : List (Fin d → ℝ)) : Matrix (Fin d) (Fin d) ℝ :=
  R_of data * (R_of data + 1)⁻¹

/-- Squared Frobenius norm, `np.linalg.norm(·, 'fro') ** 2`. -/
def frob_sq {n m : ℕ} (M : Matrix (Fin n) (Fin m) ℝ) : ℝ :=
  ∑ i, ∑ j, M i j ^ 2

/-- First index of the maximum of a nonempty list, the semantics of
`np.argmax` (ties resolved to the earliest index); `0` on `[]`. -/
def list_argmax_aux : List ℝ → ℕ → ℝ → ℕ → ℕ
  | [], _, _, best => best
  | x :: xs, idx, bestval, best =>
    if bestval < x then list_argmax_aux xs (idx + 1) x idx
    else list_argmax_aux xs (idx + 1) bestval best

/-- Argmax entry point. -/
def list_argmax : List ℝ → ℕ
  | [] => 0
  | x :: xs => list_argmax_aux xs 1 x 0

/-- Per-conceptor evidence row of `recognition_predict`:
`sum(testdata * C.dot(testdata))` where Python builtin `sum` iterates
over the rows of a 2-D array, producing the vector of column sums. -/
def evidence {d c : ℕ} (testdata : Matrix (Fin d) (Fin c) ℝ)
    (C : Matrix (Fin d) (Fin d) ℝ) : Fin c → ℝ :=
  fun j => ∑ i, testdata i j * (C * testdata) i j

/-- Method `recognition_predict(testdata, C_list)`: stacks the
per-conceptor evidence rows and takes `np.argmax(·, axis=0)`, i.e. for
each test column the index of the conceptor with the largest evidence.
The method assigns no `self` attribute, so the state passes through. -/
def recognition_predict {d c : ℕ} (s : ResState sizeIn sizeNet)
    (testdata : Matrix (Fin d) (Fin c) ℝ)
    (C_list : List (Matrix (Fin d) (Fin d) ℝ)) :
    ResState sizeIn sizeNet × (Fin c → ℕ) × List (Fin c → ℝ) :=
  let evidence_list := C_list.map (evidence testdata)
  (s, fun j => list_argmax (evidence_list.map fun r => r j), evidence_list)

/-- Method `recognition_train(datalist, apN)`.  The external
collaborators are parameters: `PHI` is `logic.PHI` (aperture
rescaling) and `interp1d` is `scipy.interpolate.interp1d` applied to
the `(exponent, norm)` support points.  Over exact reals the grid
`np.arange(0, apN-1+0.01, 0.01)` is `k/100` for `k = 0 .. 100*(apN-1)`.
Returns the pass-through state with `(C_list, R_list, C_prem_list,
apt_list)`; the source's `out_mode` only selects which of these the
caller receives.  The method assigns no `self` attribute. -/
def recognition_train {d : ℕ}
    (PHI : Matrix (Fin d) (Fin d) ℝ → ℝ → Matrix (Fin d) (Fin d) ℝ)
    (interp1d : List ℝ → List ℝ → ℝ → ℝ)
    (s : ResState sizeIn sizeNet) (datalist : List (List (Fin d → ℝ)))
    (apN : ℕ) :
    ResState sizeIn sizeNet ×
      List (Matrix (Fin d) (Fin d) ℝ) × List (Matrix (Fin d) (Fin d) ℝ) ×
      List (Matrix (Fin d) (Fin d) ℝ) × List ℝ :=
  let apsExploreExponents : List ℝ := (List.range apN).map fun i => (i : ℝ)
  let intPts : List ℝ :=
    (List.range (100 * (apN - 1) + 1)).map fun k => (k : ℝ) / 100
  let R_list := datalist.map R_of
  let C_prem_list := datalist.map C_prem
  let apt_list := datalist.map fun data =>
    let Cnorm_list : List ℝ :=
      (List.range apN).map fun i => frob_sq (PHI (C_prem data) (2 ^ i))
    let norms_Intpl := intPts.map (interp1d apsExploreExponents Cnorm_list)
    let norms_Intpl_Grad :=
      (norms_Intpl.zip norms_Intpl.tail).map fun p => (p.2 - p.1) / 0.01
    let aptind := list_argmax (norms_Intpl_Grad.map fun g => |g|)
    (2 : ℝ) ^ (intPts.getD aptind 0)
  let apt := apt_list.sum / (apt_list.length : ℝ)
  let C_list := C_prem_list.map fun C => PHI C apt
  (s, C_list, R_list, C_prem_list, apt_list)

/-- Squared euclidean norm of a vector. -/
def vnorm_sq {n : ℕ} (v : Fin n → ℝ) : ℝ := ∑ i, v i ^ 2

/-- Frobenius inner product of two matrices. -/
def frob_inner {n m : ℕ} (A B : Matrix (Fin n) (Fin m) ℝ) : ℝ :=
  ∑ i, ∑ j, A i j * B i j

/-- The Tychonov-regularized least-squares objective solved by
`compute_W_out`: the squared residual over the aggregated (state,
input) column pairs plus `varrho` times the squared Frobenius norm of
the weight matrix. -/
def ridge_obj {n m : ℕ} (xs : List (Fin n → ℝ)) (us : List (Fin m → ℝ))
    (varrho : ℝ) (W : Matrix (Fin m) (Fin n) ℝ) : ℝ :=
  ((xs.zip us).map fun p => vnorm_sq (W *ᵥ p.1 - p.2)).sum + varrho * frob_sq W

/-- A placeholder for the external `np.linalg.svd` on 1×1 matrices,
used where a theorem does not depend on the SVD values. -/
def svd_triv : Matrix (Fin 1) (Fin 1) ℝ →
    Matrix (Fin 1) (Fin 1) ℝ × (Fin 1 → ℝ) := fun R => (1, fun i => R i i)

/-- A concrete SVD witness on 2×2 matrices: constantly `(I, (4, 1))`,
which is a genuine SVD of `diag(4, 1)`. -/
def svd_two : Matrix (Fin 2) (Fin 2) ℝ →
    Matrix (Fin 2) (Fin 2) ℝ × (Fin 2 → ℝ) := fun _ => (1, ![4, 1])

/-- A reservoir (`size_in = 1`, `size_net = 1`, zero weights) that has
been driven with one single-column pattern: `num_pattern = 1`. -/
def s_driven_once : ResState 1 1 :=
  drive_reservoir svd_triv (init_reservoir 0 0 0) [0] 0

/-- A reservoir state with one stored pattern whose correlation matrix
is `diag(4, 1)` (with its SVD factors stored alongside). -/
def s_one_pattern : ResState 1 2 :=
  { init_reservoir 0 0 0 with
    num_pattern := 1
    pattern_Rs := [Matrix.diagonal ![4, 1]]
    UR_collectors := [1]
    SR_collectors := [![4, 1]] }

/-- A reservoir state with two stored patterns (both `diag(4, 1)`) and
a nonempty pre-existing conceptor bundle `Cs0 = [0]`. -/
def s_two_patterns : ResState 1 2 :=
  { init_reservoir 0 0 0 with
    num_pattern := 2
    pattern_Rs := [Matrix.diagonal ![4, 1], Matrix.diagonal ![4, 1]]
    UR_collectors := [1, 1]
    SR_collectors := [![4, 1], ![4, 1]]
    Cs0 := [0]
    Cs1 := [0]
    Cs2 := [0]
    Cs3 := [0] }

/-- A freshly constructed reservoir with `size_in = size_net = 1` and
zero weights. -/
def s_fresh : ResState 1 1 := init_reservoir 0 0 0

/-- A reservoir state with one driven pattern recorded in the
aggregated training data (one harvested column). -/
def s_ridge : ResState 1 1 :=
  { init_reservoir 0 0 0 with
    num_pattern := 1
    all_train_args := [![1]]
    all_train_old_args := [![1]]
    all_train_outs := [![1]] }

theorem corr_nil {n : ℕ} : corr ([] : List (Fin n → ℝ)) = 0 := by
  ext i k
  simp [corr]

theorem corr_cons {n : ℕ} (c : Fin n → ℝ) (t : List (Fin n → ℝ)) :
    corr (c :: t) = Matrix.of (fun i k => c i * c k) + corr t := by
  ext i k
  simp [corr]

theorem corr_append {n : ℕ} (a b : List (Fin n → ℝ)) :
    corr (a ++ b) = corr a + corr b := by
  ext i k
  simp [corr]

theorem corr_transpose {n : ℕ} (l : List (Fin n → ℝ)) :
    (corr l)ᵀ = corr l := by
  ext i k
  simp only [corr, Matrix.transpose_apply, Matrix.of_apply]
  refine congrArg List.sum (List.map_congr_left fun c _ => ?_)
  ring

theorem quad_corr {n : ℕ} (l : List (Fin n → ℝ)) (v : Fin n → ℝ) :
    v ⬝ᵥ (corr l *ᵥ v) = (l.map fun c => (∑ i, c i * v i) ^ 2).sum := by
  induction l with
  | nil => simp [corr_nil]
  | cons c t ih =>
    rw [corr_cons, Matrix.add_mulVec, dotProduct_add, ih, List.map_cons,
      List.sum_cons]
    congr 1
    simp only [Matrix.mulVec, dotProduct, Matrix.of_apply]
    rw [sq, Finset.sum_mul_sum]
    refine Finset.sum_congr rfl fun i _ => ?_
    rw [Finset.mul_sum]
    refine Finset.sum_congr rfl fun k _ => ?_
    ring

theorem quad_corr_nonneg {n : ℕ} (l : List (Fin n → ℝ)) (v : Fin n → ℝ) :
    0 ≤ v ⬝ᵥ (corr l *ᵥ v) := by
  rw [quad_corr]
  refine List.sum_nonneg ?_
  intro x hx
  obtain ⟨c, _, rfl⟩ := List.mem_map.mp hx
  positivity

theorem cross_append {n m : ℕ} (a c : List (Fin n → ℝ))
    (b d : List (Fin m → ℝ)) (h : a.length = b.length) :
    cross (a ++ c) (b ++ d) = cross a b + cross c d := by
  ext i k
  simp [cross, List.zip_append h]

theorem cross_transpose {n m : ℕ} (xs : List (Fin n → ℝ))
    (ys : List (Fin m → ℝ)) : (cross xs ys)ᵀ = cross ys xs := by
  ext k i
  simp only [cross, Matrix.transpose_apply, Matrix.of_apply]
  rw [← List.zip_swap xs ys, List.map_map]
  refine congrArg List.sum (List.map_congr_left fun p _ => ?_)
  simp only [Function.comp_apply, Prod.fst_swap, Prod.snd_swap]
  ring

theorem diag_inv_of_ne_zero {n : ℕ} (f : Fin n → ℝ) (h : ∀ i, f i ≠ 0) :
    (Matrix.diagonal f)⁻¹ = Matrix.diagonal fun i => (f i)⁻¹ :=
  Matrix.inv_eq_right_inv (by
    rw [Matrix.diagonal_mul_diagonal]
    have hone : (fun i => f i * (f i)⁻¹) = fun _ => (1 : ℝ) :=
      funext fun i => mul_inv_cancel₀ (h i)
    rw [hone, Matrix.diagonal_one])

theorem S_new_eq {n : ℕ} (S : Fin n → ℝ) (alpha : ℝ)
    (h : ∀ i, S i + alpha ^ (-2 : ℤ) ≠ 0) :
    S_new S alpha =
      Matrix.diagonal fun i => S i * (S i + alpha ^ (-2 : ℤ))⁻¹ := by
  unfold S_new
  rw [Matrix.smul_one_eq_diagonal, Matrix.diagonal_add,
    diag_inv_of_ne_zero _ h, Matrix.diagonal_mul_diagonal]

theorem projC_eq {n : ℕ} (U : Matrix (Fin n) (Fin n) ℝ) (S : Fin n → ℝ)
    (alpha : ℝ) (h : ∀ i, S i + alpha ^ (-2 : ℤ) ≠ 0) :
    projC U S alpha =
      U * Matrix.diagonal (fun i => S i * (S i + alpha ^ (-2 : ℤ))⁻¹) * Uᵀ := by
  unfold projC
  rw [S_new_eq S alpha h]

theorem projC_ten_concrete :
    projC (1 : Matrix (Fin 2) (Fin 2) ℝ) ![4, 1] 10 =
      Matrix.diagonal ![400 / 401, 100 / 101] := by
  have h : ∀ i : Fin 2, (![4, 1] : Fin 2 → ℝ) i + (10 : ℝ) ^ (-2 : ℤ) ≠ 0 := by
    intro i
    fin_cases i <;> norm_num
  rw [projC_eq _ _ _ h, Matrix.one_mul, Matrix.transpose_one, Matrix.mul_one]
  have hv : (fun i => (![4, 1] : Fin 2 → ℝ) i *
      ((![4, 1] : Fin 2 → ℝ) i + (10 : ℝ) ^ (-2 : ℤ))⁻¹) =
      ![(400 : ℝ) / 401, 100 / 101] := by
    funext i
    fin_cases i <;>
      norm_num [Matrix.cons_val_zero, Matrix.cons_val_one, Matrix.head_cons]
  rw [hv]

/-- C2: the claim fails on the code: `clean_storage` resets the trained
weights, the pattern storage, the aggregated training matrices and the
conceptor bundle, but never touches `self.num_pattern`.  On a reservoir
that has driven one pattern, after `clean_storage` the aggregated
matrices are empty as claimed, yet `num_pattern = 1 ≠ 0`. -/
theorem c2_clean_storage_keeps_num_pattern :
    (clean_storage s_driven_once).num_pattern = 1 ∧
    (clean_storage s_driven_once).all_train_args = [] ∧
    (clean_storage s_driven_once).all_train_old_args = [] ∧
    (clean_storage s_driven_once).all_train_outs = [] ∧
    (clean_storage s_driven_once).num_pattern ≠ 0 :=
  ⟨rfl, rfl, rfl, rfl, Nat.one_ne_zero⟩

/-- C10: `recognition_train` and `recognition_predict` assign no
attribute of `self`: the reservoir-state component of each result is
the input state itself, so `num_pattern`, the pattern records, the
aggregated training matrices, the trained weights and the conceptor
bundle are all exactly as before the call. -/
theorem c10_recognition_is_read_only {d c : ℕ}
    (PHI : Matrix (Fin d) (Fin d) ℝ → ℝ → Matrix (Fin d) (Fin d) ℝ)
    (interp1d : List ℝ → List ℝ → ℝ → ℝ)
    (s : ResState sizeIn sizeNet) (datalist : List (List (Fin d → ℝ)))
    (apN : ℕ) (testdata : Matrix (Fin d) (Fin c) ℝ)
    (C_list : List (Matrix (Fin d) (Fin d) ℝ)) :
    (recognition_train PHI interp1d s datalist apN).1 = s ∧
    (recognition_predict s testdata C_list).1 = s :=
  ⟨rfl, rfl⟩

/-- C3 counterexample: with the two-column test data `[[1, 2]]` and the
single conceptor `[[1]]`, the evidence the code computes for column 0
is `1`, while the claim's pooled sum of all elements of
`testdata ⊙ (C·testdata)` is `5`: `sum()` on a 2-D array sums along the
first axis only, producing one evidence value per column, not a single
pooled scalar. -/
theorem c3_counterexample :
    evidence (!![1, 2] : Matrix (Fin 1) (Fin 2) ℝ) 1 0 = 1 ∧
    (∑ i : Fin 1, ∑ j : Fin 2,
      (!![1, 2] : Matrix (Fin 1) (Fin 2) ℝ) i j *
        ((1 : Matrix (Fin 1) (Fin 1) ℝ) *
          (!![1, 2] : Matrix (Fin 1) (Fin 2) ℝ)) i j) = 5 ∧
    (1 : ℝ) ≠ 5 := by
  refine ⟨?_, ?_, by norm_num⟩
  · simp [evidence, Matrix.one_mul]
  · simp [Matrix.one_mul, Fin.sum_univ_two]
    norm_num

/-- C3 amended: for each conceptor `C`, `recognition_predict` computes
one evidence value per test column — the quadratic form of that single
column — and returns the per-column arg-max over the conceptor index
together with the stacked per-column evidence rows (no pooling of
columns into one scalar). -/
theorem c3_evidence_is_per_column {d c : ℕ}
    (testdata : Matrix (Fin d) (Fin c) ℝ) (C : Matrix (Fin d) (Fin d) ℝ)
    (j : Fin c) :
    evidence testdata C j =
      (fun i => testdata i j) ⬝ᵥ (C *ᵥ fun i => testdata i j) ∧
    ∀ (s : ResState sizeIn sizeNet)
      (C_list : List (Matrix (Fin d) (Fin d) ℝ)),
      recognition_predict s testdata C_list =
        (s,
          fun j => list_argmax ((C_list.map (evidence testdata)).map fun r => r j),
          C_list.map (evidence testdata)) := by
  refine ⟨?_, fun s C_list => rfl⟩
  simp only [evidence, dotProduct, Matrix.mulVec, Matrix.mul_apply]

theorem get?_eq_some_getD {α : Type _} [Inhabited α] (l : List α) (n : ℕ)
    (h : n < l.length) : l.get? n = some (l.getD n default) := by
  rw [List.getD_eq_getElem?_getD, List.get?_eq_getElem?]
  cases hh : l[n]? with
  | none =>
    simp [List.getElem?_eq_none_iff] at hh
    omega
  | some a => simp [hh]

theorem get?_eq_none_of_le {α : Type _} (l : List α) (n : ℕ)
    (h : l.length ≤ n) : l.get? n = none := by
  simp [List.get?_eq_getElem?, List.getElem?_eq_none_iff, h]

/-- C1: the code violates the claim: inside the loop of
`compute_projectors` the source binds `alpha = alphas[p]` but then
calls `self.compute_projector(R)` without passing it, so every stored
conceptor is computed at the default aperture `10`, regardless of
`alphas`.  With one stored pattern having `R = diag(4, 1)` and
`alphas = [1]`, the call succeeds and stores the aperture-10 conceptor
`diag(400/401, 100/101)`, whereas the claim requires the aperture-1
conceptor `diag(4/5, 1/2)`. -/
theorem c1_compute_projectors_uses_default_aperture :
    (compute_projectors svd_two s_one_pattern [1]).isRight = true ∧
    result_Cs0 (compute_projectors svd_two s_one_pattern [1]) =
      [Matrix.diagonal ![400 / 401, 100 / 101]] ∧
    (Matrix.diagonal ![(400 : ℝ) / 401, 100 / 101] :
        Matrix (Fin 2) (Fin 2) ℝ) ≠
      Matrix.diagonal ![4 / 5, 1 / 2] := by
  refine ⟨rfl, ?_, ?_⟩
  · have hred : result_Cs0 (compute_projectors svd_two s_one_pattern [1]) =
        [projC (1 : Matrix (Fin 2) (Fin 2) ℝ) ![4, 1] 10] := rfl
    rw [hred, projC_ten_concrete]
  · intro hcontra
    have h00 := congrFun (congrFun hcontra 0) 0
    simp only [Matrix.diagonal_apply_eq, Matrix.cons_val_zero] at h00
    norm_num at h00

/-- C4 counterexample: `compute_projectors` is not atomic.  On a
reservoir with two stored patterns, a pre-existing conceptor bundle
`Cs0 = [0]` and the too-short aperture list `[1]`, the call raises
(indexing `alphas[1]` fails) after the bundle has already been reset
and refilled with the first pattern's conceptor: the stored bundle at
the moment of failure is `[diag(400/401, 100/101)]`, not the pre-call
bundle `[0]`. -/
theorem c4_counterexample :
    (compute_projectors svd_two s_two_patterns [1]).isLeft = true ∧
    result_Cs0 (compute_projectors svd_two s_two_patterns [1]) ≠
      s_two_patterns.Cs0 := by
  refine ⟨rfl, ?_⟩
  have hred : result_Cs0 (compute_projectors svd_two s_two_patterns [1]) =
      [projC (1 : Matrix (Fin 2) (Fin 2) ℝ) ![4, 1] 10] := rfl
  rw [hred, projC_ten_concrete]
  intro hcontra
  have hCs : s_two_patterns.Cs0 = [0] := rfl
  rw [hCs] at hcontra
  injection hcontra with h1 _
  have h00 := congrFun (congrFun h1 0) 0
  simp only [Matrix.diagonal_apply_eq, Matrix.cons_val_zero,
    Matrix.zero_apply] at h00
  norm_num at h00

theorem proj_loop_partial
    (svd : Matrix (Fin sizeNet) (Fin sizeNet) ℝ →
      Matrix (Fin sizeNet) (Fin sizeNet) ℝ × (Fin sizeNet → ℝ))
    (alphas : List ℝ) (count : ℕ) :
    ∀ (p : ℕ) (s : ResState sizeIn sizeNet),
      p ≤ alphas.length → alphas.length < p + count →
      alphas.length < s.pattern_Rs.length →
      ∃ err, proj_loop svd alphas count p s = Sum.inl err ∧
        err.Cs0 = s.Cs0 ++ ((List.range' p (alphas.length - p)).map fun q =>
          projC (svd (s.pattern_Rs.getD q 0)).1
            (svd (s.pattern_Rs.getD q 0)).2 10) ∧
        err.pattern_Rs = s.pattern_Rs ∧
        err.num_pattern = s.num_pattern ∧
        err.all_train_args = s.all_train_args := by
  induction count with
  | zero =>
    intro p s h1 h2 _
    omega
  | succ count ih =>
    intro p s h1 h2 h3
    rcases eq_or_lt_of_le h1 with heq | hlt
    · have hR : s.pattern_Rs.get? p = some (s.pattern_Rs.getD p 0) :=
        get?_eq_some_getD _ _ (by omega)
      have hA : alphas.get? p = none := get?_eq_none_of_le _ _ (by omega)
      refine ⟨s, ?_, ?_, rfl, rfl, rfl⟩
      · simp only [proj_loop, hR, hA]
      · rw [← heq]
        simp
    · have hR : s.pattern_Rs.get? p = some (s.pattern_Rs.getD p 0) :=
        get?_eq_some_getD _ _ (by omega)
      have hA : alphas.get? p = some (alphas.getD p 0) :=
        get?_eq_some_getD _ _ (by omega)
      obtain ⟨err, hloop, hCs, hRs, hnp, hargs⟩ :=
        ih (p + 1) (compute_projector svd s (s.pattern_Rs.getD p 0))
          (by omega) (by omega) (by simpa [compute_projector] using h3)
      refine ⟨err, ?_, ?_, ?_, ?_, ?_⟩
      · simp only [proj_loop, hR, hA]
        exact hloop
      · rw [hCs]
        have hsplit : alphas.length - p = (alphas.length - (p + 1)) + 1 := by
          omega
        rw [hsplit, List.range'_succ p _ 1]
        simp only [compute_projector, List.map_cons, List.append_assoc,
          List.singleton_append]
      · exact hRs
      · exact hnp
      · exact hargs

/-- C4 amended: when `compute_projectors(alphas)` fails partway
(`alphas` shorter than `num_pattern`), the pre-call bundle is NOT
preserved: the bundle has already been reset and holds exactly the
default-aperture projectors of the patterns processed before the
failing index, while the non-bundle state is untouched.  The operation
mutates the bundle even though it fails. -/
theorem c4_compute_projectors_not_atomic
    (svd : Matrix (Fin sizeNet) (Fin sizeNet) ℝ →
      Matrix (Fin sizeNet) (Fin sizeNet) ℝ × (Fin sizeNet → ℝ))
    (s : ResState sizeIn sizeNet) (alphas : List ℝ)
    (h1 : alphas.length < s.num_pattern)
    (h2 : alphas.length < s.pattern_Rs.length) :
    ∃ err, compute_projectors svd s alphas = Sum.inl err ∧
      err.Cs0 = (List.range' 0 alphas.length).map (fun q =>
        projC (svd (s.pattern_Rs.getD q 0)).1
          (svd (s.pattern_Rs.getD q 0)).2 10) ∧
      err.pattern_Rs = s.pattern_Rs ∧
      err.num_pattern = s.num_pattern ∧
      err.all_train_args = s.all_train_args := by
  obtain ⟨err, hloop, hCs, hRs, hnp, hargs⟩ :=
    proj_loop_partial svd alphas s.num_pattern 0 (reset_bundle s)
      (by omega) (by omega) (by simpa [reset_bundle] using h2)
  exact ⟨err, hloop, by simpa [reset_bundle] using hCs,
    by simpa [reset_bundle] using hRs, by simpa [reset_bundle] using hnp,
    by simpa [reset_bundle] using hargs⟩

/-- C4 witness: the amended non-atomicity theorem instantiated on the
concrete two-pattern reservoir with aperture list `[1]`. -/
theorem c4_compute_projectors_not_atomic_witness :
    (([(1 : ℝ)].length < s_two_patterns.num_pattern ∧
      [(1 : ℝ)].length < s_two_patterns.pattern_Rs.length) ∧
    ∃ err, compute_projectors svd_two s_two_patterns [1] = Sum.inl err ∧
      err.Cs0 = (List.range' 0 [(1 : ℝ)].length).map (fun q =>
        projC (svd_two (s_two_patterns.pattern_Rs.getD q 0)).1
          (svd_two (s_two_patterns.pattern_Rs.getD q 0)).2 10) ∧
      err.pattern_Rs = s_two_patterns.pattern_Rs ∧
      err.num_pattern = s_two_patterns.num_pattern ∧
      err.all_train_args = s_two_patterns.all_train_args) :=
  ⟨⟨by decide, by decide⟩,
    c4_compute_projectors_not_atomic svd_two s_two_patterns [1]
      (by decide) (by decide)⟩

theorem conj_mul_conj {n : ℕ} (U A B : Matrix (Fin n) (Fin n) ℝ)
    (hUl : Uᵀ * U = 1) :
    (U * A * Uᵀ) * (U * B * Uᵀ) = U * (A * B) * Uᵀ := by
  rw [Matrix.mul_assoc (U * A), ← Matrix.mul_assoc Uᵀ, ← Matrix.mul_assoc Uᵀ,
    hUl, Matrix.one_mul, Matrix.mul_assoc U A, ← Matrix.mul_assoc A B,
    ← Matrix.mul_assoc U]

theorem conj_mul_inv_conj {n : ℕ} (U A B : Matrix (Fin n) (Fin n) ℝ)
    (hUl : Uᵀ * U = 1) (hUr : U * Uᵀ = 1) (hAB : A * B = 1) :
    (U * A * Uᵀ)⁻¹ = U * B * Uᵀ :=
  Matrix.inv_eq_right_inv (by
    rw [conj_mul_conj U A B hUl, hAB, Matrix.mul_one, hUr])

/-- C5: `compute_projector(R, alpha)`, given an SVD
`R = U·diag(S)·Uᵀ` of a symmetric PSD matrix (`U` orthogonal, `S`
nonnegative) and an aperture `alpha > 0`, appends to the bundle the
conceptor `C = U·diag(s/(s+alpha⁻²))·Uᵀ`; `C·U = U·diag(...)` pairs
each shrunk eigenvalue with the corresponding eigenvector of `R`, and
every eigenvalue `s/(s+alpha⁻²)` lies in `[0, 1)`. -/
theorem c5_compute_projector_shrinkage
    (svd : Matrix (Fin sizeNet) (Fin sizeNet) ℝ →
      Matrix (Fin sizeNet) (Fin sizeNet) ℝ × (Fin sizeNet → ℝ))
    (s : ResState sizeIn sizeNet)
    (R U : Matrix (Fin sizeNet) (Fin sizeNet) ℝ) (S : Fin sizeNet → ℝ)
    (alpha : ℝ) (hsvd : svd R = (U, S)) (hUl : Uᵀ * U = 1)
    (hR : R = U * Matrix.diagonal S * Uᵀ) (hS : ∀ i, 0 ≤ S i)
    (halpha : 0 < alpha) :
    (compute_projector svd s R alpha).Cs0 = s.Cs0 ++ [projC U S alpha] ∧
    projC U S alpha =
      U * Matrix.diagonal (fun i => S i / (S i + alpha ^ (-2 : ℤ))) * Uᵀ ∧
    projC U S alpha * U =
      U * Matrix.diagonal (fun i => S i / (S i + alpha ^ (-2 : ℤ))) ∧
    ∀ i, S i / (S i + alpha ^ (-2 : ℤ)) ∈ Set.Ico (0 : ℝ) 1 := by
  have hpos : ∀ i, 0 < S i + alpha ^ (-2 : ℤ) := fun i =>
    add_pos_of_nonneg_of_pos (hS i) (zpow_pos halpha _)
  have hne : ∀ i, S i + alpha ^ (-2 : ℤ) ≠ 0 := fun i => (hpos i).ne'
  have hform : projC U S alpha =
      U * Matrix.diagonal (fun i => S i / (S i + alpha ^ (-2 : ℤ))) * Uᵀ := by
    rw [projC_eq _ _ _ hne]
    have hfun : (fun i => S i * (S i + alpha ^ (-2 : ℤ))⁻¹) =
        fun i => S i / (S i + alpha ^ (-2 : ℤ)) :=
      funext fun i => (div_eq_mul_inv _ _).symm
    rw [hfun]
  refine ⟨by simp [compute_projector, hsvd], hform, ?_, ?_⟩
  · rw [hform, Matrix.mul_assoc, hUl, Matrix.mul_one]
  · intro i
    constructor
    · exact div_nonneg (hS i) (hpos i).le
    · rw [div_lt_one (hpos i)]
      exact lt_add_of_pos_right _ (zpow_pos halpha _)

/-- C5 witness: the theorem instantiated at `R = diag(4, 1)`, `U = I`,
`S = (4, 1)`, `alpha = 1`, on the concrete one-pattern reservoir;
Scenario B follows: the appended conceptor is `diag(4/5, 1/2)`. -/
theorem c5_compute_projector_shrinkage_witness :
    (svd_two (Matrix.diagonal ![4, 1]) = (1, ![4, 1]) ∧
      (1 : Matrix (Fin 2) (Fin 2) ℝ)ᵀ * 1 = 1 ∧
      Matrix.diagonal ![(4 : ℝ), 1] =
        1 * Matrix.diagonal ![(4 : ℝ), 1] * (1 : Matrix (Fin 2) (Fin 2) ℝ)ᵀ ∧
      (∀ i, 0 ≤ (![4, 1] : Fin 2 → ℝ) i) ∧ (0 : ℝ) < 1) ∧
    (compute_projector svd_two s_one_pattern (Matrix.diagonal ![4, 1]) 1).Cs0 =
      s_one_pattern.Cs0 ++ [projC 1 ![4, 1] 1] ∧
    projC (1 : Matrix (Fin 2) (Fin 2) ℝ) ![4, 1] 1 =
      Matrix.diagonal ![4 / 5, 1 / 2] := by
  have h1 : svd_two (Matrix.diagonal ![4, 1]) = (1, ![4, 1]) := rfl
  have h2 : (1 : Matrix (Fin 2) (Fin 2) ℝ)ᵀ * 1 = 1 := by simp
  have h3 : Matrix.diagonal ![(4 : ℝ), 1] =
      1 * Matrix.diagonal ![(4 : ℝ), 1] * (1 : Matrix (Fin 2) (Fin 2) ℝ)ᵀ := by
    simp
  have h4 : ∀ i, 0 ≤ (![4, 1] : Fin 2 → ℝ) i := by
    intro i
    fin_cases i <;> norm_num
  have h5 : (0 : ℝ) < 1 := one_pos
  obtain ⟨hCs, hform, _, _⟩ :=
    c5_compute_projector_shrinkage svd_two s_one_pattern
      (Matrix.diagonal ![4, 1]) 1 ![4, 1] 1 h1 h2 h3 h4 h5
  refine ⟨⟨h1, h2, h3, h4, h5⟩, hCs, ?_⟩
  rw [hform, Matrix.one_mul, Matrix.transpose_one, Matrix.mul_one]
  have hv : (fun i => (![4, 1] : Fin 2 → ℝ) i /
      ((![4, 1] : Fin 2 → ℝ) i + (1 : ℝ) ^ (-2 : ℤ))) =
      ![(4 : ℝ) / 5, 1 / 2] := by
    funext i
    fin_cases i <;>
      norm_num [Matrix.cons_val_zero, Matrix.cons_val_one, Matrix.head_cons]
  rw [hv]

theorem getD_map_range {β : Type _} (L j : ℕ) (f : ℕ → β) (d : β)
    (hj : j < L) : ((List.range L).map f).getD j d = f j := by
  rw [List.getD_eq_getElem?_getD, List.getElem?_map]
  simp [List.getElem?_range hj]

/-- C6: `drive_reservoir` iterates
`x' = tanh(W_star·x + W_in·u + W_bias)` from the zero initial state
over all `total_length` input columns; it discards the first
`washout_length` steps and records exactly
`total_length - washout_length` retained states, their immediate
predecessor states and the driving inputs at those steps; the stored
correlation matrix `R = X·Xᵀ / learn_length` is symmetric PSD. -/
theorem c6_drive_reservoir_harvest
    (svd : Matrix (Fin sizeNet) (Fin sizeNet) ℝ →
      Matrix (Fin sizeNet) (Fin sizeNet) ℝ × (Fin sizeNet → ℝ))
    (s : ResState sizeIn sizeNet) (pattern : List (Fin sizeIn → ℝ)) (w : ℕ)
    (hw : w < pattern.length) :
    (x_collector s.W_star s.W_in s.W_bias pattern w).length =
      pattern.length - w ∧
    (x_old_collector s.W_star s.W_in s.W_bias pattern w).length =
      pattern.length - w ∧
    (p_collector pattern w).length = pattern.length - w ∧
    state_seq s.W_star s.W_in s.W_bias pattern 0 = 0 ∧
    (∀ n, state_seq s.W_star s.W_in s.W_bias pattern (n + 1) =
      tanh_vec (s.W_star *ᵥ state_seq s.W_star s.W_in s.W_bias pattern n +
        s.W_in *ᵥ pattern.getD n 0 + s.W_bias)) ∧
    (∀ j, j < pattern.length - w →
      (x_collector s.W_star s.W_in s.W_bias pattern w).getD j 0 =
        state_seq s.W_star s.W_in s.W_bias pattern (w + j + 1) ∧
      (x_old_collector s.W_star s.W_in s.W_bias pattern w).getD j 0 =
        state_seq s.W_star s.W_in s.W_bias pattern (w + j) ∧
      (p_collector pattern w).getD j 0 = pattern.getD (w + j) 0) ∧
    (drive_reservoir svd s pattern w).pattern_Rs = s.pattern_Rs ++
      [((pattern.length - w : ℕ) : ℝ)⁻¹ •
        corr (x_collector s.W_star s.W_in s.W_bias pattern w)] ∧
    (drive_reservoir svd s pattern w).all_train_args =
      s.all_train_args ++ x_collector s.W_star s.W_in s.W_bias pattern w ∧
    (drive_reservoir svd s pattern w).num_pattern = s.num_pattern + 1 ∧
    (((pattern.length - w : ℕ) : ℝ)⁻¹ •
        corr (x_collector s.W_star s.W_in s.W_bias pattern w))ᵀ =
      ((pattern.length - w : ℕ) : ℝ)⁻¹ •
        corr (x_collector s.W_star s.W_in s.W_bias pattern w) ∧
    ∀ v, 0 ≤ v ⬝ᵥ ((((pattern.length - w : ℕ) : ℝ)⁻¹ •
      corr (x_collector s.W_star s.W_in s.W_bias pattern w)) *ᵥ v) := by
  refine ⟨by simp [x_collector], by simp [x_old_collector],
    by simp [p_collector], rfl, fun n => rfl, ?_, rfl, rfl, rfl, ?_, ?_⟩
  · intro j hj
    exact ⟨getD_map_range _ _ _ _ hj, getD_map_range _ _ _ _ hj,
      getD_map_range _ _ _ _ hj⟩
  · rw [Matrix.transpose_smul, corr_transpose]
  · intro v
    rw [Matrix.smul_mulVec_assoc, dotProduct_smul, smul_eq_mul]
    exact mul_nonneg (inv_nonneg.mpr (Nat.cast_nonneg _))
      (quad_corr_nonneg _ v)

/-- C6 witness: Scenario A — zero weights, `size_in = 1`,
`size_net = 2`, a 10-column all-zero pattern and washout 2 give a
harvested `X` with `10 - 2 = 8` columns. -/
theorem c6_drive_reservoir_harvest_witness :
    2 < (List.replicate 10 (0 : Fin 1 → ℝ)).length ∧
    (x_collector (init_reservoir (0 : Matrix (Fin 2) (Fin 2) ℝ)
        (0 : Matrix (Fin 2) (Fin 1) ℝ) 0).W_star
      (init_reservoir (0 : Matrix (Fin 2) (Fin 2) ℝ)
        (0 : Matrix (Fin 2) (Fin 1) ℝ) 0).W_in
      (init_reservoir (0 : Matrix (Fin 2) (Fin 2) ℝ)
        (0 : Matrix (Fin 2) (Fin 1) ℝ) 0).W_bias
      (List.replicate 10 (0 : Fin 1 → ℝ)) 2).length = 8 := by
  have hw : 2 < (List.replicate 10 (0 : Fin 1 → ℝ)).length := by simp
  have hlen := (c6_drive_reservoir_harvest svd_two
    (init_reservoir (0 : Matrix (Fin 2) (Fin 2) ℝ)
      (0 : Matrix (Fin 2) (Fin 1) ℝ) 0)
    (List.replicate 10 (0 : Fin 1 → ℝ)) 2 hw).1
  exact ⟨hw, by simpa using hlen⟩

/-- C9: the proto-conceptor of `recognition_train`,
`C_prem = R·(R+I)⁻¹`, coincides with the `compute_projector` shrinkage
formula applied once at aperture 1: given an SVD `R = U·diag(S)·Uᵀ` of
the raw correlation matrix, `C_prem = U·diag(S)·(diag(S)+I)⁻¹·Uᵀ =
projC U S 1`. -/
theorem c9_C_prem_is_unit_aperture_projector {d : ℕ}
    (data : List (Fin d → ℝ)) (U : Matrix (Fin d) (Fin d) ℝ)
    (S : Fin d → ℝ) (hUl : Uᵀ * U = 1) (hUr : U * Uᵀ = 1)
    (hR : R_of data = U * Matrix.diagonal S * Uᵀ) (hS : ∀ i, 0 ≤ S i) :
    C_prem data = projC U S 1 := by
  have hone : ∀ i, S i + (1 : ℝ) ≠ 0 := fun i => by
    have := hS i
    positivity
  have hM : Matrix.diagonal S + 1 =
      Matrix.diagonal (fun i => S i + 1) := by
    rw [← Matrix.diagonal_one, Matrix.diagonal_add]
  have hMinv : Matrix.diagonal (fun i => S i + 1) *
      Matrix.diagonal (fun i => (S i + 1)⁻¹) = 1 := by
    rw [Matrix.diagonal_mul_diagonal]
    have hprod : (fun i => (S i + 1) * (S i + 1)⁻¹) = fun _ => (1 : ℝ) :=
      funext fun i => mul_inv_cancel₀ (hone i)
    rw [hprod, Matrix.diagonal_one]
  have hRone : R_of data + 1 =
      U * Matrix.diagonal (fun i => S i + 1) * Uᵀ := by
    rw [hR, ← hM, Matrix.mul_add, Matrix.add_mul, Matrix.mul_one, hUr]
  have hone2 : ∀ i, S i + (1 : ℝ) ^ (-2 : ℤ) ≠ 0 := fun i => by
    rw [show ((1 : ℝ)) ^ (-2 : ℤ) = 1 by norm_num]
    exact hone i
  unfold C_prem
  rw [hRone, conj_mul_inv_conj U _ _ hUl hUr hMinv, hR,
    conj_mul_conj U _ _ hUl, Matrix.diagonal_mul_diagonal,
    projC_eq _ _ _ hone2,
    show (fun i => S i * (S i + (1 : ℝ) ^ (-2 : ℤ))⁻¹) =
      fun i => S i * (S i + 1)⁻¹ from funext fun i => by norm_num]

/-- C9 witness: the refinement theorem instantiated on a concrete
single-column datum `[1]`, whose raw correlation is the 1×1 identity
with SVD factors `U = I`, `S = (1)`. -/
theorem c9_C_prem_is_unit_aperture_projector_witness :
    ((1 : Matrix (Fin 1) (Fin 1) ℝ)ᵀ * 1 = 1 ∧
      (1 : Matrix (Fin 1) (Fin 1) ℝ) * (1 : Matrix (Fin 1) (Fin 1) ℝ)ᵀ = 1 ∧
      R_of [![(1 : ℝ)]] =
        1 * Matrix.diagonal ![(1 : ℝ)] * (1 : Matrix (Fin 1) (Fin 1) ℝ)ᵀ ∧
      (∀ i, 0 ≤ (![1] : Fin 1 → ℝ) i)) ∧
    C_prem [![(1 : ℝ)]] = projC 1 ![1] 1 := by
  have h1 : (1 : Matrix (Fin 1) (Fin 1) ℝ)ᵀ * 1 = 1 := by simp
  have h2 : (1 : Matrix (Fin 1) (Fin 1) ℝ) *
      (1 : Matrix (Fin 1) (Fin 1) ℝ)ᵀ = 1 := by simp
  have h3 : R_of [![(1 : ℝ)]] =
      1 * Matrix.diagonal ![(1 : ℝ)] * (1 : Matrix (Fin 1) (Fin 1) ℝ)ᵀ := by
    ext i k
    fin_cases i
    fin_cases k
    simp [R_of, corr, Matrix.diagonal]
  have h4 : ∀ i, 0 ≤ (![1] : Fin 1 → ℝ) i := by
    intro i
    fin_cases i
    norm_num
  exact ⟨⟨h1, h2, h3, h4⟩,
    c9_C_prem_is_unit_aperture_projector [![(1 : ℝ)]] 1 ![1] h1 h2 h3 h4⟩

theorem list_sum_map_add {γ : Type _} (l : List γ) (f g : γ → ℝ) :
    (l.map fun x => f x + g x).sum = (l.map f).sum + (l.map g).sum := by
  induction l with
  | nil => simp
  | cons a t ih =>
    simp only [List.map_cons, List.sum_cons, ih]
    ring

theorem list_sum_map_sub {γ : Type _} (l : List γ) (f g : γ → ℝ) :
    (l.map fun x => f x - g x).sum = (l.map f).sum - (l.map g).sum := by
  induction l with
  | nil => simp
  | cons a t ih =>
    simp only [List.map_cons, List.sum_cons, ih]
    ring

theorem list_sum_map_mul_left {γ : Type _} (l : List γ) (c : ℝ) (f : γ → ℝ) :
    (l.map fun x => c * f x).sum = c * (l.map f).sum := by
  induction l with
  | nil => simp
  | cons a t ih =>
    simp only [List.map_cons, List.sum_cons, ih]
    ring

theorem list_sum_finset_sum {γ ι : Type _} [Fintype ι] (l : List γ)
    (f : γ → ι → ℝ) :
    (l.map fun x => ∑ i, f x i).sum = ∑ i, (l.map fun x => f x i).sum := by
  induction l with
  | nil => simp
  | cons a t ih =>
    simp only [List.map_cons, List.sum_cons, ih, Finset.sum_add_distrib]

theorem vnorm_sq_add {n : ℕ} (a b : Fin n → ℝ) :
    vnorm_sq (a + b) = vnorm_sq a + 2 * (b ⬝ᵥ a) + vnorm_sq b := by
  simp only [vnorm_sq, dotProduct, Pi.add_apply]
  rw [Finset.mul_sum, ← Finset.sum_add_distrib, ← Finset.sum_add_distrib]
  exact Finset.sum_congr rfl fun i _ => by ring

theorem frob_sq_add {n m : ℕ} (A B : Matrix (Fin n) (Fin m) ℝ) :
    frob_sq (A + B) = frob_sq A + 2 * frob_inner B A + frob_sq B := by
  simp only [frob_sq, frob_inner, Matrix.add_apply]
  rw [Finset.mul_sum, ← Finset.sum_add_distrib, ← Finset.sum_add_distrib]
  refine Finset.sum_congr rfl fun i _ => ?_
  rw [Finset.mul_sum, ← Finset.sum_add_distrib, ← Finset.sum_add_distrib]
  exact Finset.sum_congr rfl fun j _ => by ring

theorem dotProduct_mulVec_frob {n m : ℕ} (D : Matrix (Fin m) (Fin n) ℝ)
    (x : Fin n → ℝ) (r : Fin m → ℝ) :
    (D *ᵥ x) ⬝ᵥ r = ∑ i, ∑ k, D i k * (r i * x k) := by
  simp only [dotProduct, Matrix.mulVec]
  refine Finset.sum_congr rfl fun i _ => ?_
  rw [Finset.sum_mul]
  exact Finset.sum_congr rfl fun k _ => by ring

theorem mul_corr_apply {n m : ℕ} (W : Matrix (Fin m) (Fin n) ℝ)
    (xs : List (Fin n → ℝ)) (i : Fin m) (k : Fin n) :
    (W * corr xs) i k = (xs.map fun c => (W *ᵥ c) i * c k).sum := by
  simp only [Matrix.mul_apply, corr, Matrix.of_apply, Matrix.mulVec,
    dotProduct]
  calc ∑ t, W i t * (xs.map fun c => c t * c k).sum
      = ∑ t, (xs.map fun c => W i t * (c t * c k)).sum := by
        exact Finset.sum_congr rfl fun t _ => (list_sum_map_mul_left _ _ _).symm
    _ = (xs.map fun c => ∑ t, W i t * (c t * c k)).sum :=
        (list_sum_finset_sum _ _).symm
    _ = (xs.map fun c => (∑ t, W i t * c t) * c k).sum := by
        refine congrArg List.sum (List.map_congr_left fun c _ => ?_)
        rw [Finset.sum_mul]
        exact Finset.sum_congr rfl fun t _ => by ring

theorem zip_snd_fst_sum {n m : ℕ} (xs : List (Fin n → ℝ))
    (us : List (Fin m → ℝ)) (i : Fin m) (k : Fin n) :
    ((xs.zip us).map fun p => p.2 i * p.1 k).sum = cross us xs i k := by
  simp only [cross, Matrix.of_apply]
  rw [← List.zip_swap xs us, List.map_map]
  rfl

theorem zip_fst_map_sum {α β : Type _} (xs : List α) (us : List β)
    (F : α → ℝ) (h : xs.length = us.length) :
    ((xs.zip us).map fun p => F p.1).sum = (xs.map F).sum := by
  rw [show (fun p : α × β => F p.1) = F ∘ Prod.fst from rfl, ← List.map_map,
    List.map_fst_zip _ _ (le_of_eq h)]

theorem ridge_cross_term {n m : ℕ} (xs : List (Fin n → ℝ))
    (us : List (Fin m → ℝ)) (h : xs.length = us.length)
    (W D : Matrix (Fin m) (Fin n) ℝ) (varrho : ℝ) :
    ((xs.zip us).map fun p => (D *ᵥ p.1) ⬝ᵥ (W *ᵥ p.1 - p.2)).sum +
      varrho * frob_inner D W =
    frob_inner D (W * (corr xs + varrho • 1) - cross us xs) := by
  have hWA : W * (corr xs + varrho • 1) = W * corr xs + varrho • W := by
    rw [Matrix.mul_add, Matrix.mul_smul, Matrix.mul_one]
  have hpt : ∀ p : (Fin n → ℝ) × (Fin m → ℝ),
      (D *ᵥ p.1) ⬝ᵥ (W *ᵥ p.1 - p.2) =
      ∑ i, ∑ k, D i k * ((W *ᵥ p.1) i * p.1 k - p.2 i * p.1 k) := by
    intro p
    rw [dotProduct_mulVec_frob]
    refine Finset.sum_congr rfl fun i _ => Finset.sum_congr rfl fun k _ => ?_
    simp only [Pi.sub_apply]
    ring
  have hcol : ((xs.zip us).map fun p =>
      (D *ᵥ p.1) ⬝ᵥ (W *ᵥ p.1 - p.2)).sum =
      ∑ i, ∑ k, D i k * ((W * corr xs) i k - cross us xs i k) := by
    rw [show ((xs.zip us).map fun p => (D *ᵥ p.1) ⬝ᵥ (W *ᵥ p.1 - p.2)) =
        (xs.zip us).map (fun p => ∑ i, ∑ k,
          D i k * ((W *ᵥ p.1) i * p.1 k - p.2 i * p.1 k)) from
      List.map_congr_left fun p _ => hpt p]
    rw [list_sum_finset_sum]
    refine Finset.sum_congr rfl fun i _ => ?_
    rw [list_sum_finset_sum]
    refine Finset.sum_congr rfl fun k _ => ?_
    rw [list_sum_map_mul_left]
    congr 1
    rw [list_sum_map_sub, mul_corr_apply,
      ← zip_fst_map_sum xs us (fun c => (W *ᵥ c) i * c k) h,
      zip_snd_fst_sum]
  rw [hcol, hWA]
  simp only [frob_inner, Matrix.sub_apply, Matrix.add_apply,
    Matrix.smul_apply, smul_eq_mul]
  rw [Finset.mul_sum, ← Finset.sum_add_distrib]
  refine Finset.sum_congr rfl fun i _ => ?_
  rw [Finset.mul_sum, ← Finset.sum_add_distrib]
  exact Finset.sum_congr rfl fun k _ => by ring

theorem corr_reg_posDef {n : ℕ} (xs : List (Fin n → ℝ)) (varrho : ℝ)
    (hv : 0 < varrho) :
    (corr xs + varrho • (1 : Matrix (Fin n) (Fin n) ℝ)).PosDef := by
  have hsymm : (corr xs + varrho • (1 : Matrix (Fin n) (Fin n) ℝ))ᵀ =
      corr xs + varrho • 1 := by
    rw [Matrix.transpose_add, corr_transpose, Matrix.transpose_smul,
      Matrix.transpose_one]
  constructor
  · show (corr xs + varrho • (1 : Matrix (Fin n) (Fin n) ℝ))ᴴ = _
    ext i k
    rw [Matrix.conjTranspose_apply, star_trivial]
    exact congrFun (congrFun hsymm i) k
  · intro x hx
    have hsx : star x = x := by
      funext i
      exact star_trivial _
    rw [hsx, Matrix.add_mulVec, dotProduct_add, Matrix.smul_mulVec_assoc,
      Matrix.one_mulVec, dotProduct_smul, smul_eq_mul]
    have h1 := quad_corr_nonneg xs x
    have h2 : 0 < x ⬝ᵥ x := by
      obtain ⟨i, hi⟩ := Function.ne_iff.mp hx
      have hs : 0 < ∑ j, x j * x j :=
        Finset.sum_pos' (fun j _ => mul_self_nonneg _)
          ⟨i, Finset.mem_univ i, mul_self_pos.mpr hi⟩
      simpa [dotProduct] using hs
    exact add_pos_of_nonneg_of_pos h1 (mul_pos hv h2)

theorem corr_reg_det_isUnit {n : ℕ} (xs : List (Fin n → ℝ)) (varrho : ℝ)
    (hv : 0 < varrho) :
    IsUnit (corr xs + varrho • (1 : Matrix (Fin n) (Fin n) ℝ)).det :=
  (corr_reg_posDef xs varrho hv).det_pos.ne'.isUnit

theorem compute_W_out_normal (s : ResState sizeIn sizeNet) (varrho : ℝ)
    (hv : 0 < varrho) :
    compute_W_out_mat s varrho * (corr s.all_train_args + varrho • 1) =
      cross s.all_train_outs s.all_train_args := by
  have hA : (corr s.all_train_args +
      varrho • (1 : Matrix (Fin sizeNet) (Fin sizeNet) ℝ))ᵀ =
      corr s.all_train_args + varrho • 1 := by
    rw [Matrix.transpose_add, corr_transpose, Matrix.transpose_smul,
      Matrix.transpose_one]
  unfold compute_W_out_mat
  rw [Matrix.transpose_mul, Matrix.transpose_nonsing_inv, hA,
    cross_transpose, Matrix.mul_assoc,
    Matrix.nonsing_inv_mul _ (corr_reg_det_isUnit _ _ hv), Matrix.mul_one]

/-- C7: after at least one driven pattern, `compute_W_out(varrho_out)`
stores `W_out = U_all·X_allᵀ·(X_all·X_allᵀ + varrho_out·I)⁻¹`, and this
matrix minimizes the ridge objective
`‖W·X_all − U_all‖² + varrho_out·‖W‖²` over all weight matrices. -/
theorem c7_compute_W_out_ridge (s : ResState sizeIn sizeNet) (varrho : ℝ)
    (hv : 0 < varrho) (hnp : 0 < s.num_pattern)
    (hlen : s.all_train_args.length = s.all_train_outs.length) :
    (compute_W_out s varrho).W_out = some (compute_W_out_mat s varrho) ∧
    compute_W_out_mat s varrho =
      cross s.all_train_outs s.all_train_args *
        (corr s.all_train_args + varrho • 1)⁻¹ ∧
    ∀ W1, ridge_obj s.all_train_args s.all_train_outs varrho
        (compute_W_out_mat s varrho) ≤
      ridge_obj s.all_train_args s.all_train_outs varrho W1 := by
  have hA : (corr s.all_train_args +
      varrho • (1 : Matrix (Fin sizeNet) (Fin sizeNet) ℝ))ᵀ =
      corr s.all_train_args + varrho • 1 := by
    rw [Matrix.transpose_add, corr_transpose, Matrix.transpose_smul,
      Matrix.transpose_one]
  have hnormal := compute_W_out_normal s varrho hv
  have hformula : compute_W_out_mat s varrho =
      cross s.all_train_outs s.all_train_args *
        (corr s.all_train_args + varrho • 1)⁻¹ := by
    unfold compute_W_out_mat
    rw [Matrix.transpose_mul, Matrix.transpose_nonsing_inv, hA,
      cross_transpose]
  refine ⟨rfl, hformula, ?_⟩
  intro W1
  set W0 := compute_W_out_mat s varrho with hW0
  set D := W1 - W0 with hD
  have hdecomp : W1 = W0 + D := by
    rw [hD]
    abel
  have hobj : ridge_obj s.all_train_args s.all_train_outs varrho (W0 + D) =
      ridge_obj s.all_train_args s.all_train_outs varrho W0 +
      2 * (((s.all_train_args.zip s.all_train_outs).map fun p =>
          (D *ᵥ p.1) ⬝ᵥ (W0 *ᵥ p.1 - p.2)).sum +
        varrho * frob_inner D W0) +
      (((s.all_train_args.zip s.all_train_outs).map fun p =>
          vnorm_sq (D *ᵥ p.1)).sum + varrho * frob_sq D) := by
    unfold ridge_obj
    have hpt : ∀ p : (Fin sizeNet → ℝ) × (Fin sizeIn → ℝ),
        vnorm_sq ((W0 + D) *ᵥ p.1 - p.2) =
        vnorm_sq (W0 *ᵥ p.1 - p.2) +
          (2 * ((D *ᵥ p.1) ⬝ᵥ (W0 *ᵥ p.1 - p.2)) + vnorm_sq (D *ᵥ p.1)) := by
      intro p
      have harr : (W0 + D) *ᵥ p.1 - p.2 = (W0 *ᵥ p.1 - p.2) + D *ᵥ p.1 := by
        rw [Matrix.add_mulVec]
        abel
      rw [harr, vnorm_sq_add]
      ring
    rw [show ((s.all_train_args.zip s.all_train_outs).map fun p =>
        vnorm_sq ((W0 + D) *ᵥ p.1 - p.2)) =
        (s.all_train_args.zip s.all_train_outs).map (fun p =>
          vnorm_sq (W0 *ᵥ p.1 - p.2) +
            (2 * ((D *ᵥ p.1) ⬝ᵥ (W0 *ᵥ p.1 - p.2)) +
              vnorm_sq (D *ᵥ p.1))) from
      List.map_congr_left fun p _ => hpt p]
    rw [list_sum_map_add, list_sum_map_add, frob_sq_add,
      list_sum_map_mul_left]
    ring
  have hT : ((s.all_train_args.zip s.all_train_outs).map fun p =>
      (D *ᵥ p.1) ⬝ᵥ (W0 *ᵥ p.1 - p.2)).sum + varrho * frob_inner D W0 = 0 := by
    rw [ridge_cross_term _ _ hlen W0 D varrho, hnormal, sub_self]
    simp [frob_inner]
  have hQ : 0 ≤ ((s.all_train_args.zip s.all_train_outs).map fun p =>
      vnorm_sq (D *ᵥ p.1)).sum + varrho * frob_sq D := by
    have h1 : 0 ≤ ((s.all_train_args.zip s.all_train_outs).map fun p =>
        vnorm_sq (D *ᵥ p.1)).sum := by
      refine List.sum_nonneg ?_
      intro a ha
      obtain ⟨p, _, rfl⟩ := List.mem_map.mp ha
      unfold vnorm_sq
      positivity
    have h2 : 0 ≤ frob_sq D := by
      unfold frob_sq
      positivity
    exact add_nonneg h1 (mul_nonneg hv.le h2)
  rw [hdecomp, hobj, hT]
  linarith

/-- C7 witness: the ridge theorem instantiated on the concrete
one-pattern reservoir `s_ridge` with `varrho_out = 1`. -/
theorem c7_compute_W_out_ridge_witness :
    ((0 : ℝ) < 1 ∧ 0 < s_ridge.num_pattern ∧
      s_ridge.all_train_args.length = s_ridge.all_train_outs.length) ∧
    ((compute_W_out s_ridge 1).W_out = some (compute_W_out_mat s_ridge 1) ∧
     compute_W_out_mat s_ridge 1 =
       cross s_ridge.all_train_outs s_ridge.all_train_args *
         (corr s_ridge.all_train_args + (1 : ℝ) • 1)⁻¹ ∧
     ∀ W1, ridge_obj s_ridge.all_train_args s_ridge.all_train_outs 1
         (compute_W_out_mat s_ridge 1) ≤
       ridge_obj s_ridge.all_train_args s_ridge.all_train_outs 1 W1) :=
  ⟨⟨one_pos, Nat.one_pos, rfl⟩,
    c7_compute_W_out_ridge s_ridge 1 one_pos Nat.one_pos rfl⟩

theorem collector_lengths {si sn : ℕ}
    (W_star : Matrix (Fin sn) (Fin sn) ℝ) (W_in : Matrix (Fin sn) (Fin si) ℝ)
    (W_bias : Fin sn → ℝ) (pattern : List (Fin si → ℝ)) (w : ℕ) :
    (x_collector W_star W_in W_bias pattern w).length = pattern.length - w ∧
    (x_old_collector W_star W_in W_bias pattern w).length =
      pattern.length - w ∧
    (p_collector pattern w).length = pattern.length - w := by
  refine ⟨?_, ?_, ?_⟩ <;> simp [x_collector, x_old_collector, p_collector]

/-- C8: training is invariant under the order of the driven patterns.
Starting from a reservoir with empty aggregated training data, driving
`[p1, p2]` concatenates the per-pattern harvested columns (it does not
reassign), and both ridge solutions — the `compute_W_out` matrix and
the `compute_W` matrix — coincide with those obtained after driving
`[p2, p1]`, because they depend on the aggregated columns only through
order-invariant correlation sums. -/
theorem c8_training_order_invariant
    (svd : Matrix (Fin sizeNet) (Fin sizeNet) ℝ →
      Matrix (Fin sizeNet) (Fin sizeNet) ℝ × (Fin sizeNet → ℝ))
    (s : ResState sizeIn sizeNet) (p1 p2 : List (Fin sizeIn → ℝ)) (w : ℕ)
    (varrho_out varrho_w : ℝ)
    (h1 : s.all_train_args = []) (h2 : s.all_train_old_args = [])
    (h3 : s.all_train_outs = []) :
    (drive_reservoir svd (drive_reservoir svd s p1 w) p2 w).all_train_args =
      x_collector s.W_star s.W_in s.W_bias p1 w ++
        x_collector s.W_star s.W_in s.W_bias p2 w ∧
    compute_W_out_mat
        (drive_reservoir svd (drive_reservoir svd s p1 w) p2 w) varrho_out =
      compute_W_out_mat
        (drive_reservoir svd (drive_reservoir svd s p2 w) p1 w) varrho_out ∧
    compute_W_mat
        (drive_reservoir svd (drive_reservoir svd s p1 w) p2 w) varrho_w =
      compute_W_mat
        (drive_reservoir svd (drive_reservoir svd s p2 w) p1 w) varrho_w := by
  have eargsA : (drive_reservoir svd (drive_reservoir svd s p1 w) p2
      w).all_train_args =
      x_collector s.W_star s.W_in s.W_bias p1 w ++
        x_collector s.W_star s.W_in s.W_bias p2 w := by
    rw [show (drive_reservoir svd (drive_reservoir svd s p1 w) p2
        w).all_train_args =
      (s.all_train_args ++ x_collector s.W_star s.W_in s.W_bias p1 w) ++
        x_collector s.W_star s.W_in s.W_bias p2 w from rfl, h1,
      List.nil_append]
  have eargsB : (drive_reservoir svd (drive_reservoir svd s p2 w) p1
      w).all_train_args =
      x_collector s.W_star s.W_in s.W_bias p2 w ++
        x_collector s.W_star s.W_in s.W_bias p1 w := by
    rw [show (drive_reservoir svd (drive_reservoir svd s p2 w) p1
        w).all_train_args =
      (s.all_train_args ++ x_collector s.W_star s.W_in s.W_bias p2 w) ++
        x_collector s.W_star s.W_in s.W_bias p1 w from rfl, h1,
      List.nil_append]
  have eoldA : (drive_reservoir svd (drive_reservoir svd s p1 w) p2
      w).all_train_old_args =
      x_old_collector s.W_star s.W_in s.W_bias p1 w ++
        x_old_collector s.W_star s.W_in s.W_bias p2 w := by
    rw [show (drive_reservoir svd (drive_reservoir svd s p1 w) p2
        w).all_train_old_args =
      (s.all_train_old_args ++
        x_old_collector s.W_star s.W_in s.W_bias p1 w) ++
        x_old_collector s.W_star s.W_in s.W_bias p2 w from rfl, h2,
      List.nil_append]
  have eoldB : (drive_reservoir svd (drive_reservoir svd s p2 w) p1
      w).all_train_old_args =
      x_old_collector s.W_star s.W_in s.W_bias p2 w ++
        x_old_collector s.W_star s.W_in s.W_bias p1 w := by
    rw [show (drive_reservoir svd (drive_reservoir svd s p2 w) p1
        w).all_train_old_args =
      (s.all_train_old_args ++
        x_old_collector s.W_star s.W_in s.W_bias p2 w) ++
        x_old_collector s.W_star s.W_in s.W_bias p1 w from rfl, h2,
      List.nil_append]
  have eoutsA : (drive_reservoir svd (drive_reservoir svd s p1 w) p2
      w).all_train_outs =
      p_collector p1 w ++ p_collector p2 w := by
    rw [show (drive_reservoir svd (drive_reservoir svd s p1 w) p2
        w).all_train_outs =
      (s.all_train_outs ++ p_collector p1 w) ++ p_collector p2 w from rfl,
      h3, List.nil_append]
  have eoutsB : (drive_reservoir svd (drive_reservoir svd s p2 w) p1
      w).all_train_outs =
      p_collector p2 w ++ p_collector p1 w := by
    rw [show (drive_reservoir svd (drive_reservoir svd s p2 w) p1
        w).all_train_outs =
      (s.all_train_outs ++ p_collector p2 w) ++ p_collector p1 w from rfl,
      h3, List.nil_append]
  have hlen1 : (x_collector s.W_star s.W_in s.W_bias p1 w).length =
      (p_collector p1 w).length := by
    simp [x_collector, p_collector]
  have hlen2 : (x_collector s.W_star s.W_in s.W_bias p2 w).length =
      (p_collector p2 w).length := by
    simp [x_collector, p_collector]
  have hcorr : corr (x_collector s.W_star s.W_in s.W_bias p1 w ++
        x_collector s.W_star s.W_in s.W_bias p2 w) =
      corr (x_collector s.W_star s.W_in s.W_bias p2 w ++
        x_collector s.W_star s.W_in s.W_bias p1 w) := by
    rw [corr_append, corr_append, add_comm]
  have hcross : cross (x_collector s.W_star s.W_in s.W_bias p1 w ++
        x_collector s.W_star s.W_in s.W_bias p2 w)
      (p_collector p1 w ++ p_collector p2 w) =
      cross (x_collector s.W_star s.W_in s.W_bias p2 w ++
        x_collector s.W_star s.W_in s.W_bias p1 w)
      (p_collector p2 w ++ p_collector p1 w) := by
    rw [cross_append _ _ _ _ hlen1, cross_append _ _ _ _ hlen2, add_comm]
  refine ⟨eargsA, ?_, ?_⟩
  · unfold compute_W_out_mat
    rw [eargsA, eargsB, eoutsA, eoutsB, hcorr, hcross]
  · have ebiasA : (drive_reservoir svd (drive_reservoir svd s p1 w) p2
        w).W_bias = s.W_bias := rfl
    have ebiasB : (drive_reservoir svd (drive_reservoir svd s p2 w) p1
        w).W_bias = s.W_bias := rfl
    have etargA : W_targets
        (drive_reservoir svd (drive_reservoir svd s p1 w) p2 w) =
        (x_collector s.W_star s.W_in s.W_bias p1 w).map
          (fun c i => artanh (c i) - s.W_bias i) ++
        (x_collector s.W_star s.W_in s.W_bias p2 w).map
          (fun c i => artanh (c i) - s.W_bias i) := by
      unfold W_targets
      rw [eargsA, ebiasA, List.map_append]
    have etargB : W_targets
        (drive_reservoir svd (drive_reservoir svd s p2 w) p1 w) =
        (x_collector s.W_star s.W_in s.W_bias p2 w).map
          (fun c i => artanh (c i) - s.W_bias i) ++
        (x_collector s.W_star s.W_in s.W_bias p1 w).map
          (fun c i => artanh (c i) - s.W_bias i) := by
      unfold W_targets
      rw [eargsB, ebiasB, List.map_append]
    have hlen3 : (x_old_collector s.W_star s.W_in s.W_bias p1 w).length =
        ((x_collector s.W_star s.W_in s.W_bias p1 w).map
          (fun c i => artanh (c i) - s.W_bias i)).length := by
      simp [x_old_collector, x_collector]
    have hlen4 : (x_old_collector s.W_star s.W_in s.W_bias p2 w).length =
        ((x_collector s.W_star s.W_in s.W_bias p2 w).map
          (fun c i => artanh (c i) - s.W_bias i)).length := by
      simp [x_old_collector, x_collector]
    have hcorr2 : corr (x_old_collector s.W_star s.W_in s.W_bias p1 w ++
          x_old_collector s.W_star s.W_in s.W_bias p2 w) =
        corr (x_old_collector s.W_star s.W_in s.W_bias p2 w ++
          x_old_collector s.W_star s.W_in s.W_bias p1 w) := by
      rw [corr_append, corr_append, add_comm]
    unfold compute_W_mat
    rw [etargA, etargB, eoldA, eoldB, hcorr2,
      cross_append _ _ _ _ hlen3, cross_append _ _ _ _ hlen4,
      add_comm (cross (x_old_collector s.W_star s.W_in s.W_bias p1 w)
        ((x_collector s.W_star s.W_in s.W_bias p1 w).map
          (fun c i => artanh (c i) - s.W_bias i)))]

/-- C8 witness: order invariance instantiated on a fresh zero-weight
reservoir with two concrete single-column patterns. -/
theorem c8_training_order_invariant_witness :
    (s_fresh.all_train_args = [] ∧ s_fresh.all_train_old_args = [] ∧
      s_fresh.all_train_outs = []) ∧
    compute_W_out_mat (drive_reservoir svd_triv
        (drive_reservoir svd_triv s_fresh [![1]] 0) [![2]] 0) 1 =
      compute_W_out_mat (drive_reservoir svd_triv
        (drive_reservoir svd_triv s_fresh [![2]] 0) [![1]] 0) 1 ∧
    compute_W_mat (drive_reservoir svd_triv
        (drive_reservoir svd_triv s_fresh [![1]] 0) [![2]] 0) 1 =
      compute_W_mat (drive_reservoir svd_triv
        (drive_reservoir svd_triv s_fresh [![2]] 0) [![1]] 0) 1 :=
  ⟨⟨rfl, rfl, rfl⟩,
    (c8_training_order_invariant svd_triv s_fresh
      [![1]] [![2]] 0 1 1 rfl rfl rfl).2.1,
    (c8_training_order_invariant svd_triv s_fresh
      [![1]] [![2]] 0 1 1 rfl rfl rfl).2.2⟩

end

end Conceptor
